import Mathlib

/-!
Verification of `saints_downloader.py`: a shallow embedding of the program's
pure logic (link extraction, embedded-state marker search, content-store
lookup with its three fallback strategies, audio-variant selection, filename
construction, and the file downloader's effect on a modelled filesystem),
together with theorems settling the specification's claims.

External facilities (the HTTP transport, gzip decompression, UTF-8 decoding,
base64/JSON decoding) are passed in as parameters: the theorems are about the
program's own control flow and data transformations, which the embedding
reproduces from the source.
-/

namespace Saints

/-! ## Basic character-list helpers -/

/-- Drop `p` from the front of `s`; `none` when `p` is not a prefix of `s`. -/
def dropPfx : List Char → List Char → Option (List Char)
  | [], s => some s
  | _, [] => none
  | p :: ps, c :: cs => if p = c then dropPfx ps cs else none

/-- Python `url.split("?", 1)[0]` / `url.split('?')[0]`: the characters before
the first `?` (the whole string when there is none). -/
def splitQ (s : List Char) : List Char :=
  s.takeWhile (fun c => c ≠ '?')

/-- Python `s.split('/')[-1]`: the characters after the last `/` (the whole
string when there is none). -/
def afterLastSlash (s : List Char) : List Char :=
  s.foldl (fun acc c => if c = '/' then [] else acc ++ [c]) []

/-- Python `chapter_url.replace("/study", "")`: remove every (leftmost,
non-overlapping) occurrence of the substring `/study`. -/
def removeStudy : List Char → List Char
  | '/' :: 's' :: 't' :: 'u' :: 'd' :: 'y' :: rest => removeStudy rest
  | c :: cs => c :: removeStudy cs
  | [] => []

/-- Python `\s` on ASCII text: the whitespace characters of `re`. -/
def isPySpace (c : Char) : Bool :=
  c == ' ' || c == '\t' || c == '\n' || c == '\r' || c == '\x0b' || c == '\x0c'

/-! ## The regex models

Each regex that the program uses is embedded as a scanner over the character
list, with the same leftmost-match, non-overlapping semantics as Python `re`.
-/

/-- One attempt of `href="(PRE[^" ]*)"` at the start of `s`: the literal
`href="`, the literal path stem `pre`, then a maximal run of characters that
are neither `"` nor a space, then the closing `"`.  On success, returns the
capture group (stem plus run) and the remainder after the closing quote. -/
def matchHrefAt (pre : List Char) (s : List Char) : Option (List Char × List Char) :=
  match dropPfx (String.toList "href=\"" ++ pre) s with
  | none => none
  | some rest =>
    let run := rest.takeWhile (fun c => !(c == '"' || c == ' '))
    match rest.dropWhile (fun c => !(c == '"' || c == ' ')) with
    | '"' :: tail => some (pre ++ run, tail)
    | _ => none

/-- `re.findall` for the href pattern: scan left to right, restart one
character later on failure, continue after the match on success.  The fuel is
the length of the text; every step consumes at least one character, so the
fuel never runs out. -/
def findallAux (pre : List Char) : Nat → List Char → List (List Char)
  | 0, _ => []
  | _, [] => []
  | fuel + 1, c :: cs =>
    match matchHrefAt pre (c :: cs) with
    | some (cap, rest) => cap :: findallAux pre fuel rest
    | none => findallAux pre fuel cs

/-- `re.findall(r'href="(PRE[^\" ]*)"', html)` where `PRE` is the interpolated
path stem `/study/history/{slug}/`. -/
def findallHref (pre html : String) : List String :=
  (findallAux pre.toList html.toList.length html.toList).map String.mk

/-- Does `re.search(r'/\d\{2\}-', link)` match at the start of `s`? -/
def matchSlashDDAt : List Char → Bool
  | '/' :: a :: b :: '-' :: _ => a.isDigit && b.isDigit
  | _ => false

/-- `re.search(r'/\d\{2\}-', link)` as a Boolean: some position of `s` starts
`/`, digit, digit, `-`. -/
def hasSlashDD : List Char → Bool
  | [] => false
  | c :: cs => matchSlashDDAt (c :: cs) || hasSlashDD cs

/-- Does `re.search(r'/s\d+-episode-\d+', link)` match at the start of `s`?
After `/s`, a maximal nonempty digit run, the literal `-episode-`, then at
least one digit (greediness of `\d+` cannot backtrack into a successful
match, so the maximal-run reading is exact). -/
def matchEpisodeAt : List Char → Bool
  | '/' :: 's' :: rest =>
    let ds := rest.takeWhile Char.isDigit
    if ds.isEmpty then false
    else
      match dropPfx (String.toList "-episode-") (rest.dropWhile Char.isDigit) with
      | some (d :: _) => d.isDigit
      | _ => false
  | _ => false

/-- `re.search(r'/s\d+-episode-\d+', link)` as a Boolean. -/
def hasEpisodeSeg : List Char → Bool
  | [] => false
  | c :: cs => matchEpisodeAt (c :: cs) || hasEpisodeSeg cs

/-- One attempt of `window.__INITIAL_STATE__="([^"]+)"` at the start of `s`:
the literal `window`, any one character other than a newline (the unescaped
`.` of the source pattern), the literal `__INITIAL_STATE__="`, a maximal
nonempty run of non-quote characters, then the closing quote.  Returns the
capture group. -/
def matchStateAt : List Char → Option (List Char)
  | 'w' :: 'i' :: 'n' :: 'd' :: 'o' :: 'w' :: c :: rest =>
    if c = '\n' then none
    else
      match dropPfx (String.toList "__INITIAL_STATE__=\"") rest with
      | none => none
      | some r =>
        match r.takeWhile (fun x => x ≠ '"'), r.dropWhile (fun x => x ≠ '"') with
        | [], _ => none
        | cap, '"' :: _ => some cap
        | _, _ => none
  | _ => none

/-- The scan of `re.search` for the embedded-state marker. -/
def searchState : Nat → List Char → Option (List Char)
  | 0, _ => none
  | _, [] => none
  | fuel + 1, c :: cs =>
    match matchStateAt (c :: cs) with
    | some cap => some cap
    | none => searchState fuel cs

/-- `re.search(r'window.__INITIAL_STATE__="([^"]+)"', html)`, returning the
captured base64 blob. -/
def findInitialState (html : String) : Option String :=
  (searchState html.toList.length html.toList).map String.mk

/-- `re.search(r'/([0-9][0-9])-', link)`, returning the captured two digits of
the first occurrence. -/
def chapterNum : List Char → Option String
  | '/' :: a :: b :: '-' :: rest =>
    if a.isDigit && b.isDigit then some (String.mk [a, b])
    else chapterNum (a :: b :: '-' :: rest)
  | _ :: cs => chapterNum cs
  | [] => none

/-- `re.sub(r'^\d+\s*', '', title)`: when the title starts with a digit, strip
the maximal leading digit run and the maximal whitespace run after it;
otherwise the title is unchanged. -/
def cleanTitle (t : String) : String :=
  match t.toList with
  | [] => t
  | c :: _ =>
    if c.isDigit then String.mk ((t.toList.dropWhile Char.isDigit).dropWhile isPySpace)
    else t

/-! ## First-seen de-duplication: `list(dict.fromkeys(xs))` -/

/-- Worker for `dict.fromkeys`: keep an element the first time it is seen. -/
def dedupFirstAux (seen : List String) : List String → List String
  | [] => []
  | x :: xs =>
    if x ∈ seen then dedupFirstAux seen xs
    else x :: dedupFirstAux (x :: seen) xs

/-- `list(dict.fromkeys(xs))`: de-duplicate, keeping first occurrences in
their original order. -/
def dedupFirst (xs : List String) : List String :=
  dedupFirstAux [] xs

/-- Index of the first occurrence of `a` in a list (length of the list when
`a` is absent). -/
def firstIdx (a : String) : List String → Nat
  | [] => 0
  | x :: xs => if x = a then 0 else firstIdx a xs + 1

/-! ## The link extractors

The network fetch is factored out: the extractors take the fetched
listing-page body as an argument and perform the pure part of
`extract_chapter_links` / `extract_episode_links`.
-/

/-- The list bound to `links` and filtered into `chapters` in the source: all
href matches for the slug, kept when they contain a `/NN-` segment. -/
def chapterCandidates (volume_slug html : String) : List String :=
  (findallHref ("/study/history/" ++ volume_slug ++ "/") html).filter
    (fun l => hasSlashDD l.toList)

/-- `extract_chapter_links`, on the already-fetched page body. -/
def extract_chapter_links (volume_slug html : String) : List String :=
  dedupFirst (chapterCandidates volume_slug html)

/-- The list bound to `links` and filtered into `episodes` in the source. -/
def episodeCandidates (season_slug html : String) : List String :=
  (findallHref ("/study/history/" ++ season_slug ++ "/") html).filter
    (fun l => hasEpisodeSeg l.toList)

/-- `extract_episode_links`, on the already-fetched page body. -/
def extract_episode_links (season_slug html : String) : List String :=
  dedupFirst (episodeCandidates season_slug html)

/-! ## The content store and `parse_audio_link` -/

/-- One element of `meta.audio`: a JSON record with optional `variant` and
`mediaUrl` fields (`a.get(...)` yields `None` when a field is absent). -/
structure AudioVariant where
  variant : Option String
  mediaUrl : Option String
deriving DecidableEq

/-- The `meta` record of a content entry, with optional `title` and `audio`
fields. -/
structure Meta where
  title : Option String
  audio : Option (List AudioVariant)
deriving DecidableEq

/-- A content-store entry: a JSON object with an optional `meta` record
(`entry.get("meta", \x7b\x7d)` supplies the empty default). -/
structure Entry where
  meta : Option Meta
deriving DecidableEq

/-- The content store `data["reader"]["contentStore"]`: a JSON object, i.e. a
finite map from keys to entries in insertion order. -/
abbrev Store := List (String × Entry)

/-- `store.get(k)`: the value at key `k`, `None` when absent. -/
def storeGet (store : Store) (k : String) : Option Entry :=
  match store with
  | [] => none
  | (k', e) :: rest => if k' = k then some e else storeGet rest k

/-- `entry.get("meta", \x7b\x7d).get("title", "chapter")`. -/
def entryTitle (e : Entry) : String :=
  (e.meta.bind Meta.title).getD "chapter"

/-- `entry.get("meta", \x7b\x7d).get("audio", [])`. -/
def entryAudio (e : Entry) : List AudioVariant :=
  (e.meta.bind Meta.audio).getD []

/-- Python truthiness of the `audio_url` variable: falsy when `None` or the
empty string. -/
def pyFalsy : Option String → Bool
  | none => true
  | some s => s == ""

/-- The male-variant scan: the first list element whose `variant` is
`"male"` sets `audio_url` to its `mediaUrl` (possibly `None`) and breaks. -/
def findMaleUrl : List AudioVariant → Option String
  | [] => none
  | a :: rest => if a.variant = some "male" then a.mediaUrl else findMaleUrl rest

/-- Variant selection of `parse_audio_link`: the male scan, then
`if not audio_url and audio_list: audio_url = audio_list[0].get("mediaUrl")`. -/
def selectAudio (l : List AudioVariant) : Option String :=
  let u := findMaleUrl l
  if pyFalsy u then
    match l with
    | a :: _ => a.mediaUrl
    | [] => u
  else u

/-- The three-tier key lookup of `parse_audio_link` (source lines 66-76),
with the source's nested `if not entry` structure: first the URL with every
`/study` occurrence removed, then the same after dropping the query string,
then a scan of the store keys for one that ends in `/` plus the URL's last
path segment. -/
def scanSuffix (store : Store) (slug : List Char) : Option Entry :=
  match store with
  | [] => none
  | (k, e) :: rest =>
    if List.isSuffixOf ('/' :: slug) k.toList then some e else scanSuffix rest slug

/-- The lookup part of `parse_audio_link`, nested exactly as in the source. -/
def lookupEntry (store : Store) (chapter_url : String) : Option Entry :=
  let entry0 := storeGet store (String.mk (removeStudy chapter_url.toList))
  let entry1 :=
    match entry0 with
    | some e => some e
    | none => storeGet store (String.mk (removeStudy (splitQ chapter_url.toList)))
  match entry1 with
  | some e => some e
  | none => scanSuffix store (afterLastSlash (splitQ chapter_url.toList))

/-- The part of `parse_audio_link` after the embedded blob has been decoded
into the content store: lookup, then title and audio-URL extraction.  A miss
returns `(None, None)`. -/
def parseFromStore (store : Store) (chapter_url : String) : Option String × Option String :=
  match lookupEntry store chapter_url with
  | none => (none, none)
  | some entry => (selectAudio (entryAudio entry), some (entryTitle entry))

/-- `parse_audio_link` on the fetched page body.  The base64 + JSON decoding
of the blob and the navigation `data.get("reader", \x7b\x7d).get("contentStore", \x7b\x7d)`
are abstracted as the parameter `dec` (a decode failure raises and is a hard
failure outside the resolver's soft-miss contract). -/
def parse_audio_link (dec : String → Store) (html chapter_url : String) :
    Option String × Option String :=
  match findInitialState html with
  | none => (none, none)
  | some blob => parseFromStore (dec blob) chapter_url

/-! ### The lookup strategies as an ordered list (the spec's refinement view) -/

/-- Tier 1: the URL with every `/study` occurrence removed, looked up
exactly. -/
def strat1 (store : Store) (url : String) : Option Entry :=
  storeGet store (String.mk (removeStudy url.toList))

/-- Tier 2: the query-stripped URL with every `/study` occurrence removed. -/
def strat2 (store : Store) (url : String) : Option Entry :=
  storeGet store (String.mk (removeStudy (splitQ url.toList)))

/-- Tier 3: the scan over store keys for one ending in `/` plus the URL's
final path segment. -/
def strat3 (store : Store) (url : String) : Option Entry :=
  scanSuffix store (afterLastSlash (splitQ url.toList))

/-- First hit of an ordered list of lookup strategies, short-circuiting. -/
def firstHit : List (Store → String → Option Entry) → Store → String → Option Entry
  | [], _, _ => none
  | f :: rest, s, u =>
    match f s u with
    | some e => some e
    | none => firstHit rest s u

/-- The ordered strategy list of the resolver. -/
def lookupStrategies : List (Store → String → Option Entry) :=
  [strat1, strat2, strat3]

/-- The claim's reading of tier 1, following the spec's words: the URL with
its *leading* `/study` prefix segment stripped (not every occurrence). -/
def specLeadingStripKey (url : String) : String :=
  match dropPfx (String.toList "/study") url.toList with
  | some rest => String.mk rest
  | none => url

/-- Variant selection as the amended claim words it: the male scan's URL when
it is present and non-empty, else the first entry's `mediaUrl`, and `none` on
an empty list. -/
def selectAudioSpec (l : List AudioVariant) : Option String :=
  match l with
  | [] => none
  | a :: _ => if pyFalsy (findMaleUrl l) then a.mediaUrl else findMaleUrl l

/-! ## Filename construction in `process_volume` -/

/-- `prefix = num.group(1) if num else ""` followed by the f-string
`f"\x7bprefix\x7d \x7btitle_cleaned\x7d.mp3".replace('/', '-')` (a single-character
replacement is a character-wise map). -/
def buildFilename (link title : String) : String :=
  let px := (chapterNum link.toList).getD ""
  String.mk ((px ++ " " ++ cleanTitle title ++ ".mp3").toList.map
    (fun c => if c = '/' then '-' else c))

/-! ## The HTTP body decoding of `get_html` -/

/-- A gzip stream begins with the magic bytes `0x1f 0x8b`; a decompressor
opened with `16 + MAX_WBITS` requires them. -/
def gzipMagic : List Nat → Bool
  | a :: b :: _ => a == 31 && b == 139
  | _ => false

/-- The body handling of `get_html`: try gzip decompression, fall back to the
raw bytes on `zlib.error`, then decode as UTF-8.  The decompressor and the
UTF-8 decoder are parameters. -/
def decodeBody (gunzip : List Nat → Option (List Nat)) (utf8 : List Nat → Option String)
    (data : List Nat) : Option String :=
  match gunzip data with
  | some d => utf8 d
  | none => utf8 data

/-! ## The filesystem model and `download_file` -/

/-- posix `os.path.dirname`: everything up to the last `/`, with trailing
slashes stripped unless the head is all slashes. -/
def dirname (p : String) : String :=
  let l := p.toList
  let tailLen := (l.reverse.takeWhile (fun c => c ≠ '/')).length
  let head := l.take (l.length - tailLen)
  if head ≠ [] ∧ ¬ head.all (fun c => c = '/') then
    String.mk ((head.reverse.dropWhile (fun c => c = '/')).reverse)
  else String.mk head

/-- The chain of directories `os.makedirs` ensures: the directory and its
ancestors, outermost first.  The fuel is the string length; `dirname`
strictly shortens its argument until it reaches a fixed point. -/
def dirChain : Nat → String → List String
  | 0, d => [d]
  | fuel + 1, d =>
    let h := dirname d
    if h = "" ∨ h = d then [d] else dirChain fuel h ++ [d]

/-- All directories created by `os.makedirs(d, exist_ok=True)`. -/
def allDirs (d : String) : List String :=
  dirChain d.length d

/-- The modelled filesystem: the set of existing directories and the files
with their byte contents. -/
structure FS where
  dirs : List String
  files : List (String × List Nat)
deriving DecidableEq

/-- The observable external events of one `download_file` call. -/
inductive Ev where
  | fetch : String → Ev
  | write : String → Ev
deriving DecidableEq

/-- Add a directory if it is not already present (`exist_ok=True`). -/
def insertDir (d : String) (ds : List String) : List String :=
  if d ∈ ds then ds else ds ++ [d]

/-- Ensure a list of directories exists. -/
def insertAll (ds new : List String) : List String :=
  new.foldl (fun acc x => insertDir x acc) ds

/-- `os.makedirs(d, exist_ok=True)` on the modelled filesystem. -/
def mkdirsFS (d : String) (fs : FS) : FS :=
  { fs with dirs := insertAll fs.dirs (allDirs d) }

/-- First file lookup by path. -/
def lookupFile (files : List (String × List Nat)) (p : String) : Option (List Nat) :=
  match files with
  | [] => none
  | (q, d) :: rest => if q = p then some d else lookupFile rest p

/-- `os.path.exists(path)`: a file or a directory at that path. -/
def pathExists (fs : FS) (p : String) : Bool :=
  (lookupFile fs.files p).isSome || decide (p ∈ fs.dirs)

/-- `download_file(url, path)` on the modelled filesystem, with the network
as the oracle `net` mapping a URL to the fetched bytes.  Returns the new
filesystem and the external events performed (`if not url: return`; then
`makedirs`; then the existence check; then fetch and write). -/
def download_file (net : String → List Nat) (url : Option String) (path : String)
    (fs : FS) : FS × List Ev :=
  match url with
  | none => (fs, [])
  | some u =>
    if u = "" then (fs, [])
    else
      let fs1 := mkdirsFS (dirname path) fs
      if pathExists fs1 path then (fs1, [])
      else ({ fs1 with files := fs1.files ++ [(path, net u)] }, [Ev.fetch u, Ev.write path])

/-! ## Concrete data for the counterexamples and witnesses -/

/-- A content entry with title `t1`. -/
def cexEntryA : Entry := ⟨some ⟨some "t1", none⟩⟩

/-- A content entry with title `t2`. -/
def cexEntryB : Entry := ⟨some ⟨some "t2", none⟩⟩

/-- A store where the all-occurrence removal of `/study` and the claimed
leading-only strip land on different keys. -/
def cexStoreC1 : Store := [("/history-foo", cexEntryA), ("/history/study-foo", cexEntryB)]

/-- A chapter URL containing `/study` in a non-leading position. -/
def cexUrlC1 : String := "/study/history/study-foo"

/-- A store whose only key is the bare final path segment, with no `/` in
front of it. -/
def cexStoreC5 : Store := [("01-foo", cexEntryA)]

/-- The requested link whose final path segment is `01-foo`. -/
def cexUrlC5 : String := "/study/history/saints-v1/01-foo"

/-- An audio list whose male-labelled entry carries no `mediaUrl`. -/
def cexAudioList : List AudioVariant :=
  [⟨some "female", some "A"⟩, ⟨some "male", none⟩]

/-! ## Helper lemmas -/

theorem mem_dedupFirstAux (x : String) :
    ∀ (l seen : List String), x ∈ dedupFirstAux seen l ↔ x ∈ l ∧ x ∉ seen := by
  intro l
  induction l with
  | nil => intro seen; simp [dedupFirstAux]
  | cons y ys ih =>
    intro seen
    by_cases hy : y ∈ seen
    · rw [dedupFirstAux, if_pos hy, ih]
      simp only [List.mem_cons]
      constructor
      · exact fun h => ⟨Or.inr h.1, h.2⟩
      · rintro ⟨h1 | h1, h2⟩
        · exact absurd (h1 ▸ hy) h2
        · exact ⟨h1, h2⟩
    · rw [dedupFirstAux, if_neg hy]
      simp only [List.mem_cons, ih, List.mem_cons]
      constructor
      · rintro (rfl | ⟨h1, h2⟩)
        · exact ⟨Or.inl rfl, hy⟩
        · exact ⟨Or.inr h1, fun hs => h2 (Or.inr hs)⟩
      · rintro ⟨rfl | h1, h2⟩
        · exact Or.inl rfl
        · by_cases hxy : x = y
          · exact Or.inl hxy
          · exact Or.inr ⟨h1, fun hs => hs.elim hxy h2⟩

theorem dedupFirstAux_sublist :
    ∀ (l seen : List String), (dedupFirstAux seen l).Sublist l := by
  intro l
  induction l with
  | nil => intro seen; simp [dedupFirstAux]
  | cons y ys ih =>
    intro seen
    rw [dedupFirstAux]
    by_cases hy : y ∈ seen
    · rw [if_pos hy]; exact (ih seen).cons y
    · rw [if_neg hy]; exact (ih (y :: seen)).cons₂ y

theorem dedupFirstAux_nodup :
    ∀ (l seen : List String), (dedupFirstAux seen l).Nodup := by
  intro l
  induction l with
  | nil => intro seen; simp [dedupFirstAux]
  | cons y ys ih =>
    intro seen
    rw [dedupFirstAux]
    by_cases hy : y ∈ seen
    · rw [if_pos hy]; exact ih seen
    · rw [if_neg hy]
      refine List.nodup_cons.mpr ⟨?_, ih (y :: seen)⟩
      intro hmem
      exact ((mem_dedupFirstAux y ys (y :: seen)).1 hmem).2 (List.mem_cons_self y seen)

theorem firstIdx_cons (a x : String) (xs : List String) :
    firstIdx a (x :: xs) = if x = a then 0 else firstIdx a xs + 1 := rfl

theorem dedupFirstAux_pairwise :
    ∀ (l seen : List String),
      (dedupFirstAux seen l).Pairwise (fun a b => firstIdx a l < firstIdx b l) := by
  intro l
  induction l with
  | nil => intro seen; simp [dedupFirstAux]
  | cons y ys ih =>
    intro seen
    rw [dedupFirstAux]
    by_cases hy : y ∈ seen
    · rw [if_pos hy]
      refine List.Pairwise.imp_of_mem ?_ (ih seen)
      intro a b ha hb hab
      have hane : a ≠ y := fun h => ((mem_dedupFirstAux a ys seen).1 ha).2 (h ▸ hy)
      have hbne : b ≠ y := fun h => ((mem_dedupFirstAux b ys seen).1 hb).2 (h ▸ hy)
      rw [firstIdx_cons, firstIdx_cons, if_neg (fun h => hane h.symm),
        if_neg (fun h => hbne h.symm)]
      omega
    · rw [if_neg hy]
      refine List.pairwise_cons.mpr ⟨?_, ?_⟩
      · intro b hb
        have hbne : b ≠ y :=
          fun h => ((mem_dedupFirstAux b ys (y :: seen)).1 hb).2 (h ▸ List.mem_cons_self y seen)
        rw [firstIdx_cons, firstIdx_cons, if_pos rfl, if_neg (fun h => hbne h.symm)]
        omega
      · refine List.Pairwise.imp_of_mem ?_ (ih (y :: seen))
        intro a b ha hb hab
        have hane : a ≠ y :=
          fun h => ((mem_dedupFirstAux a ys (y :: seen)).1 ha).2 (h ▸ List.mem_cons_self y seen)
        have hbne : b ≠ y :=
          fun h => ((mem_dedupFirstAux b ys (y :: seen)).1 hb).2 (h ▸ List.mem_cons_self y seen)
        rw [firstIdx_cons, firstIdx_cons, if_neg (fun h => hane h.symm),
          if_neg (fun h => hbne h.symm)]
        omega

theorem mem_dedupFirst (x : String) (l : List String) : x ∈ dedupFirst l ↔ x ∈ l := by
  rw [dedupFirst, mem_dedupFirstAux]
  simp

theorem dedupFirst_sublist (l : List String) : (dedupFirst l).Sublist l :=
  dedupFirstAux_sublist l []

theorem dedupFirst_nodup (l : List String) : (dedupFirst l).Nodup :=
  dedupFirstAux_nodup l []

theorem dedupFirst_pairwise (l : List String) :
    (dedupFirst l).Pairwise (fun a b => firstIdx a l < firstIdx b l) :=
  dedupFirstAux_pairwise l []

theorem lookupEntry_eq_firstHit (store : Store) (url : String) :
    lookupEntry store url = firstHit lookupStrategies store url := by
  rw [lookupEntry, lookupStrategies, firstHit, firstHit, firstHit, strat1, strat2, strat3]
  cases storeGet store (String.mk (removeStudy url.toList)) <;>
    cases storeGet store (String.mk (removeStudy (splitQ url.toList))) <;>
      cases scanSuffix store (afterLastSlash (splitQ url.toList)) <;>
        simp [firstHit]

theorem parseFromStore_of_lookup_none (store : Store) (url : String)
    (h : lookupEntry store url = none) : parseFromStore store url = (none, none) := by
  rw [parseFromStore, h]

theorem mem_insertDir (x d : String) (ds : List String) :
    x ∈ insertDir d ds ↔ x ∈ ds ∨ x = d := by
  rw [insertDir]
  by_cases h : d ∈ ds
  · rw [if_pos h]
    exact ⟨Or.inl, fun hh => hh.elim id (fun he => he ▸ h)⟩
  · rw [if_neg h]
    simp

theorem mem_insertAll (x : String) :
    ∀ (new ds : List String), x ∈ insertAll ds new ↔ x ∈ ds ∨ x ∈ new := by
  intro new
  induction new with
  | nil => intro ds; simp [insertAll]
  | cons d rest ih =>
    intro ds
    show x ∈ insertAll (insertDir d ds) rest ↔ _
    rw [ih, mem_insertDir]
    simp only [List.mem_cons]
    tauto

theorem insertAll_of_subset :
    ∀ (new ds : List String), (∀ x ∈ new, x ∈ ds) → insertAll ds new = ds := by
  intro new
  induction new with
  | nil => intro ds _; rfl
  | cons d rest ih =>
    intro ds h
    show insertAll (insertDir d ds) rest = ds
    rw [insertDir, if_pos (h d (List.mem_cons_self d rest))]
    exact ih ds (fun x hx => h x (List.mem_cons_of_mem d hx))

theorem lookupFile_append_self (p : String) (d : List Nat) :
    ∀ files, lookupFile files p = none → lookupFile (files ++ [(p, d)]) p = some d := by
  intro files
  induction files with
  | nil => intro _; simp [lookupFile]
  | cons f rest ih =>
    intro h
    obtain ⟨q, e⟩ := f
    by_cases hq : q = p
    · rw [lookupFile, if_pos hq] at h
      exact absurd h (by simp)
    · rw [lookupFile, if_neg hq] at h
      show lookupFile ((q, e) :: (rest ++ [(p, d)])) p = some d
      rw [lookupFile, if_neg hq]
      exact ih h

theorem download_first (net : String → List Nat) (u path : String) (fs : FS)
    (hu : u ≠ "") (hf : lookupFile fs.files path = none) (hd : path ∉ fs.dirs)
    (hc : path ∉ allDirs (dirname path)) :
    download_file net (some u) path fs =
      ({ dirs := insertAll fs.dirs (allDirs (dirname path)),
         files := fs.files ++ [(path, net u)] }, [Ev.fetch u, Ev.write path]) := by
  have hmem : path ∉ (mkdirsFS (dirname path) fs).dirs := by
    rw [mkdirsFS]
    intro hmm
    rcases (mem_insertAll path (allDirs (dirname path)) fs.dirs).1 hmm with h | h
    · exact hd h
    · exact hc h
  have hex : pathExists (mkdirsFS (dirname path) fs) path = false := by
    rw [pathExists]
    have hfl : lookupFile (mkdirsFS (dirname path) fs).files path = none := hf
    rw [hfl]
    simp [hmem]
  rw [download_file, if_neg hu]
  show (if pathExists (mkdirsFS (dirname path) fs) path = true then _ else _) = _
  rw [hex]
  simp [mkdirsFS]

theorem download_skip (net : String → List Nat) (u path : String) (fs : FS)
    (hu : u ≠ "") (hex : pathExists (mkdirsFS (dirname path) fs) path = true) :
    download_file net (some u) path fs = (mkdirsFS (dirname path) fs, []) := by
  rw [download_file, if_neg hu]
  show (if pathExists (mkdirsFS (dirname path) fs) path = true then _ else _) = _
  rw [hex]
  simp

theorem download_second (net : String → List Nat) (u path : String) (fs1 : FS)
    (hu : u ≠ "") (hl : (lookupFile fs1.files path).isSome = true)
    (hdirs : insertAll fs1.dirs (allDirs (dirname path)) = fs1.dirs) :
    download_file net (some u) path fs1 = (fs1, []) := by
  have hmk : mkdirsFS (dirname path) fs1 = fs1 := by
    rw [mkdirsFS, hdirs]
  have hex : pathExists (mkdirsFS (dirname path) fs1) path = true := by
    rw [hmk, pathExists, Bool.or_eq_true]
    exact Or.inl hl
  rw [download_skip net u path fs1 hu hex, hmk]

theorem scanSuffix_finds (slug : List Char) :
    ∀ (store : Store) (k : String) (e : Entry), (k, e) ∈ store →
      List.isSuffixOf ('/' :: slug) k.toList = true →
      (∀ k' e', (k', e') ∈ store → List.isSuffixOf ('/' :: slug) k'.toList = true → e' = e) →
      scanSuffix store slug = some e := by
  intro store
  induction store with
  | nil => intro k e hk; simp at hk
  | cons p rest ih =>
    intro k e hk hsuf huniq
    obtain ⟨k0, e0⟩ := p
    rw [scanSuffix]
    by_cases h0 : List.isSuffixOf ('/' :: slug) k0.toList = true
    · rw [if_pos h0, huniq k0 e0 (List.mem_cons_self _ _) h0]
    · rw [if_neg h0]
      rcases List.mem_cons.mp hk with heq | hrest
      · exact absurd (congrArg (fun q => List.isSuffixOf ('/' :: slug) q.1.toList)
          heq.symm ▸ hsuf) h0
      · exact ih k e hrest hsuf
          (fun k' e' h' s' => huniq k' e' (List.mem_cons_of_mem _ h') s')

/-! ## The claims -/

/-- C1 counterexample: the resolver's first lookup key is **not** the URL with
its leading `/study` prefix segment stripped.  `chapter_url.replace("/study", "")`
removes every occurrence of `/study`, so for the URL
`/study/history/study-foo` over a store holding both `/history-foo` and
`/history/study-foo`, the resolver's tier 1 finds the `/history-foo` entry,
while the claimed leading-strip key names the different `/history/study-foo`
entry. -/
theorem parse_lookup_not_leading_strip :
    lookupEntry cexStoreC1 cexUrlC1 = some cexEntryA ∧
    specLeadingStripKey cexUrlC1 = "/history/study-foo" ∧
    storeGet cexStoreC1 (specLeadingStripKey cexUrlC1) = some cexEntryB ∧
    cexEntryA ≠ cexEntryB := by
  decide

/-- C1 (amended): the resolver's lookup is exactly the first hit of the
ordered strategy list — (1) the URL with **every** occurrence of the substring
`/study` removed, (2) the same removal applied to the query-stripped URL,
(3) the scan over store keys for one ending in `/` plus the URL's final path
segment — and when all three miss, the resolver returns no audio URL and no
title. -/
theorem lookup_strategies_ordered (store : Store) (url : String) :
    lookupEntry store url = firstHit lookupStrategies store url ∧
    (firstHit lookupStrategies store url = none → parseFromStore store url = (none, none)) := by
  refine ⟨lookupEntry_eq_firstHit store url, fun h => ?_⟩
  exact parseFromStore_of_lookup_none store url ((lookupEntry_eq_firstHit store url).trans h)

/-- Witness for C1 (amended) at a concrete store and URL. -/
theorem lookup_strategies_ordered_w :
    parseFromStore [] "/study/history/saints-v1/01-x" = (none, none) :=
  (lookup_strategies_ordered [] "/study/history/saints-v1/01-x").2 rfl

/-- C2: both link extractors return exactly the first-seen de-duplication of
the href matches that pass their shape filter: the result has no duplicates,
is a sublist of the filtered candidate list, contains a link iff it is a
candidate passing the filter, lists links in the order of their first
occurrence, and every returned link passes the shape filter (`/NN-` for
chapters, `/sN-episode-N` for episodes). -/
theorem extract_links_dedup_shape (slug html : String) :
    (extract_chapter_links slug html = dedupFirst (chapterCandidates slug html) ∧
      (extract_chapter_links slug html).Nodup ∧
      (extract_chapter_links slug html).Sublist (chapterCandidates slug html) ∧
      (∀ l, l ∈ extract_chapter_links slug html ↔ l ∈ chapterCandidates slug html) ∧
      (extract_chapter_links slug html).Pairwise
        (fun a b => firstIdx a (chapterCandidates slug html) <
          firstIdx b (chapterCandidates slug html)) ∧
      (∀ l, l ∈ extract_chapter_links slug html → hasSlashDD l.toList = true)) ∧
    (extract_episode_links slug html = dedupFirst (episodeCandidates slug html) ∧
      (extract_episode_links slug html).Nodup ∧
      (extract_episode_links slug html).Sublist (episodeCandidates slug html) ∧
      (∀ l, l ∈ extract_episode_links slug html ↔ l ∈ episodeCandidates slug html) ∧
      (extract_episode_links slug html).Pairwise
        (fun a b => firstIdx a (episodeCandidates slug html) <
          firstIdx b (episodeCandidates slug html)) ∧
      (∀ l, l ∈ extract_episode_links slug html → hasEpisodeSeg l.toList = true)) := by
  constructor
  · refine ⟨rfl, dedupFirst_nodup _, dedupFirst_sublist _,
      fun l => mem_dedupFirst l _, dedupFirst_pairwise _, fun l hl => ?_⟩
    have h := (mem_dedupFirst l _).1 hl
    rw [chapterCandidates] at h
    exact (List.mem_filter.mp h).2
  · refine ⟨rfl, dedupFirst_nodup _, dedupFirst_sublist _,
      fun l => mem_dedupFirst l _, dedupFirst_pairwise _, fun l hl => ?_⟩
    have h := (mem_dedupFirst l _).1 hl
    rw [episodeCandidates] at h
    exact (List.mem_filter.mp h).2

/-- Witness for C2: a link returned on a concrete listing body passes the
chapter shape filter. -/
theorem extract_links_dedup_shape_w :
    hasSlashDD (String.toList "/study/history/v/01-a") = true :=
  (extract_links_dedup_shape "v"
      "href=\"/study/history/v/01-a\" href=\"/study/history/v/x\"").1.2.2.2.2.2
    "/study/history/v/01-a" (by decide)

/-- C3 counterexample: the audio list
`[(variant "female", url "A"), (variant "male", no url)]` carries a
male-labelled entry, yet the resolver returns `"A"` — the first entry's URL —
not the male entry's (absent) media URL as the claim states. -/
theorem variant_male_null_cex :
    (∃ a ∈ cexAudioList, a.variant = some "male") ∧
    (∀ a ∈ cexAudioList, a.variant = some "male" → a.mediaUrl = none) ∧
    selectAudio cexAudioList = some "A" := by
  decide

/-- C3 (amended): variant selection returns the first male-labelled entry's
media URL when that URL is present and non-empty; otherwise — no male entry,
or its `mediaUrl` missing or empty — it returns the first list entry's media
URL; on an empty list the audio URL is absent.  The spec's two examples hold
as stated. -/
theorem selectAudio_spec_eq :
    (∀ l, selectAudio l = selectAudioSpec l) ∧
    selectAudio [⟨some "female", some "A"⟩, ⟨some "male", some "B"⟩] = some "B" ∧
    selectAudio [⟨some "female", some "A"⟩] = some "A" := by
  refine ⟨fun l => ?_, by decide, by decide⟩
  cases l with
  | nil => rfl
  | cons a rest =>
    cases hp : pyFalsy (findMaleUrl (a :: rest)) <;>
      simp [selectAudio, selectAudioSpec, hp]

/-- C4: on a filesystem where the destination is absent, downloading the same
present URL to the same path twice performs exactly one fetch and one write
(both on the first call), records the fetched bytes at the path, and the
second call is a complete no-op (no events, state unchanged). -/
theorem download_idempotent (net : String → List Nat) (u path : String) (fs : FS)
    (hu : u ≠ "") (hf : lookupFile fs.files path = none) (hd : path ∉ fs.dirs)
    (hc : path ∉ allDirs (dirname path)) :
    (download_file net (some u) path fs).2 = [Ev.fetch u, Ev.write path] ∧
    (download_file net (some u) path fs).1.files = fs.files ++ [(path, net u)] ∧
    lookupFile (download_file net (some u) path fs).1.files path = some (net u) ∧
    download_file net (some u) path (download_file net (some u) path fs).1 =
      ((download_file net (some u) path fs).1, []) := by
  have h1 := download_first net u path fs hu hf hd hc
  have hlook : lookupFile (fs.files ++ [(path, net u)]) path = some (net u) :=
    lookupFile_append_self path (net u) fs.files hf
  refine ⟨by rw [h1], by rw [h1], by rw [h1]; exact hlook, ?_⟩
  rw [h1]
  refine download_second net u path _ hu ?_ ?_
  · show (lookupFile (fs.files ++ [(path, net u)]) path).isSome = true
    rw [hlook]
    rfl
  · show insertAll (insertAll fs.dirs (allDirs (dirname path))) (allDirs (dirname path)) = _
    exact insertAll_of_subset (allDirs (dirname path)) _
      (fun x hx => (mem_insertAll x (allDirs (dirname path)) fs.dirs).2 (Or.inr hx))

/-- Witness for C4 on a concrete empty filesystem. -/
theorem download_idempotent_w :
    (download_file (fun _ => [7]) (some "http://a") "d/f.mp3" ⟨[], []⟩).2 =
      [Ev.fetch "http://a", Ev.write "d/f.mp3"] :=
  (download_idempotent (fun _ => [7]) "http://a" "d/f.mp3" ⟨[], []⟩
    (by decide) rfl (by decide) (by decide)).1

/-- C5 counterexample: in the store whose only key is the bare segment
`01-foo`, the exact lookup keys for `/study/history/saints-v1/01-foo` are
absent and the key shares the link's final path segment, yet the suffix scan
(which demands a preceding `/`) finds nothing and the resolver misses. -/
theorem suffix_scan_bare_key_cex :
    strat1 cexStoreC5 cexUrlC5 = none ∧
    strat2 cexStoreC5 cexUrlC5 = none ∧
    ("01-foo", cexEntryA) ∈ cexStoreC5 ∧
    afterLastSlash (String.toList "01-foo") = afterLastSlash (splitQ cexUrlC5.toList) ∧
    lookupEntry cexStoreC5 cexUrlC5 = none := by
  decide

/-- C5 (amended): when the tier-1 and tier-2 keys are both absent and the
store holds exactly one entry whose key ends in `/` followed by the link's
final path segment, the suffix-match scan locates that entry. -/
theorem suffix_scan_locates (store : Store) (url k : String) (e : Entry)
    (h1 : strat1 store url = none) (h2 : strat2 store url = none)
    (hk : (k, e) ∈ store)
    (hsuf : List.isSuffixOf ('/' :: afterLastSlash (splitQ url.toList)) k.toList = true)
    (huniq : ∀ k' e', (k', e') ∈ store →
      List.isSuffixOf ('/' :: afterLastSlash (splitQ url.toList)) k'.toList = true →
      e' = e) :
    lookupEntry store url = some e := by
  have h3 : strat3 store url = some e :=
    scanSuffix_finds (afterLastSlash (splitQ url.toList)) store k e hk hsuf huniq
  rw [lookupEntry_eq_firstHit, lookupStrategies]
  simp only [firstHit, h1, h2, h3]

/-- Witness for C5 (amended): the store key `/content/history/saints-v1/01-foo`
is located for the requested link `/study/history/saints-v1/01-foo`. -/
theorem suffix_scan_locates_w :
    lookupEntry [("/content/history/saints-v1/01-foo", cexEntryB)]
      "/study/history/saints-v1/01-foo" = some cexEntryB := by
  refine suffix_scan_locates _ _ "/content/history/saints-v1/01-foo" cexEntryB
    (by decide) (by decide) (by decide) (by decide) ?_
  intro k' e' hmem _
  simp only [List.mem_singleton, Prod.mk.injEq] at hmem
  exact hmem.2

/-- C6: a page body in which the embedded-state marker search fails resolves
to no audio URL and no title; a store on which all three lookup strategies
miss resolves to no audio URL and no title; and the downloader writes no file
for an item whose audio URL is absent. -/
theorem soft_miss_behavior (dec : String → Store) (html url : String) (store : Store)
    (net : String → List Nat) (path : String) (fs : FS) :
    (findInitialState html = none → parse_audio_link dec html url = (none, none)) ∧
    (strat1 store url = none → strat2 store url = none → strat3 store url = none →
      parseFromStore store url = (none, none)) ∧
    download_file net none path fs = (fs, []) := by
  refine ⟨fun h => by rw [parse_audio_link, h], fun h1 h2 h3 => ?_, rfl⟩
  apply parseFromStore_of_lookup_none
  rw [lookupEntry_eq_firstHit, lookupStrategies]
  simp only [firstHit, h1, h2, h3]

/-- Witness for C6 on a concrete marker-free body. -/
theorem soft_miss_behavior_w :
    parse_audio_link (fun _ => []) "no marker here" "/study/x" = (none, none) :=
  (soft_miss_behavior (fun _ => []) "no marker here" "/study/x" [] (fun _ => [])
    "p" ⟨[], []⟩).1 (by decide)

/-- C7: for the link `/study/history/saints-v1/03-an-eye-single` and title
`3 An Eye Single`, the prefix is `03`, the cleaned title is `An Eye Single`,
and the filename is `03 An Eye Single.mp3`; in general the filename is the
prefix, a space, the cleaned title and `.mp3` with every `/` replaced by `-`,
where a title starting with a digit has its leading digits and following
whitespace stripped, and the prefix digits come from an occurrence of
`/NN-` in the link. -/
theorem filename_construction :
    chapterNum (String.toList "/study/history/saints-v1/03-an-eye-single") = some "03" ∧
    cleanTitle "3 An Eye Single" = "An Eye Single" ∧
    buildFilename "/study/history/saints-v1/03-an-eye-single" "3 An Eye Single" =
      "03 An Eye Single.mp3" ∧
    (∀ link title, buildFilename link title =
      String.mk (((((chapterNum link.toList).getD "") ++ " " ++
        cleanTitle title ++ ".mp3").toList).map (fun c => if c = '/' then '-' else c))) ∧
    (∀ t c rest, t.toList = c :: rest → c.isDigit = true →
      cleanTitle t = String.mk ((t.toList.dropWhile Char.isDigit).dropWhile isPySpace)) := by
  refine ⟨by decide, by decide, by decide, fun link title => rfl, fun t c rest h hc => ?_⟩
  rw [cleanTitle, h]
  simp [hc]

/-- Witness for C7: the cleaned-title characterization at a concrete title. -/
theorem filename_construction_w :
    cleanTitle "12 Foo" =
      String.mk (((String.toList "12 Foo").dropWhile Char.isDigit).dropWhile isPySpace) :=
  filename_construction.2.2.2.2 "12 Foo" '1' (String.toList "2 Foo") rfl (by decide)

/-- C8: the fetcher's body handling tries gzip decompression and falls back
to the raw bytes when it fails: for any decompressor that rejects bodies
without the gzip magic, a body that is not gzip decodes as the UTF-8 text of
the raw bytes, and a body the decompressor accepts decodes as the UTF-8 text
of the decompressed bytes. -/
theorem gzip_fallback (gunzip : List Nat → Option (List Nat))
    (utf8 : List Nat → Option String) (data : List Nat)
    (hgz : ∀ d, gzipMagic d = false → gunzip d = none) :
    (gzipMagic data = false → decodeBody gunzip utf8 data = utf8 data) ∧
    (∀ d, gunzip data = some d → decodeBody gunzip utf8 data = utf8 d) := by
  constructor
  · intro h
    rw [decodeBody, hgz data h]
  · intro d h
    rw [decodeBody, h]

/-- Witness for C8 with a rejecting decompressor and a one-byte body. -/
theorem gzip_fallback_w :
    decodeBody (fun _ => none) (fun d => some (String.mk (d.map Char.ofNat))) [104] =
      (fun d => some (String.mk (d.map Char.ofNat))) [104] :=
  (gzip_fallback (fun _ => none) (fun d => some (String.mk (d.map Char.ofNat))) [104]
    (fun d _ => rfl)).1 (by decide)

/-- C9: when the male-variant scan of a nonempty audio list produces no URL —
in particular when a male-labelled entry exists but its `mediaUrl` is absent —
the resolver falls back to the first list entry's media URL rather than
keeping the scan's empty result. -/
theorem male_scan_fallback (l : List AudioVariant) (a : AudioVariant)
    (rest : List AudioVariant) (hl : l = a :: rest) (hm : findMaleUrl l = none)
    (hmale : ∃ x ∈ l, x.variant = some "male") :
    selectAudio l = a.mediaUrl := by
  subst hl
  rw [selectAudio, hm]
  simp [pyFalsy]

/-- Witness for C9 on the list whose male entry lacks a media URL. -/
theorem male_scan_fallback_w :
    selectAudio cexAudioList = some "A" :=
  male_scan_fallback cexAudioList ⟨some "female", some "A"⟩ [⟨some "male", none⟩]
    rfl (by decide) (by decide)

/-- C10: the downloader with an absent (or empty) URL changes nothing and
performs no events; with a present URL and an existing destination it skips
the fetch and write, and its only filesystem effect is ensuring the parent
directories — the files are untouched. -/
theorem download_frame (net : String → List Nat) (path : String) (fs : FS) :
    download_file net none path fs = (fs, []) ∧
    download_file net (some "") path fs = (fs, []) ∧
    (mkdirsFS (dirname path) fs).files = fs.files ∧
    (∀ u, u ≠ "" → pathExists (mkdirsFS (dirname path) fs) path = true →
      download_file net (some u) path fs = (mkdirsFS (dirname path) fs, [])) := by
  refine ⟨rfl, by rw [download_file, if_pos rfl], rfl,
    fun u hu hex => download_skip net u path fs hu hex⟩

/-- Witness for C10: a skipped call on a concrete filesystem that already
holds the destination file. -/
theorem download_frame_w :
    download_file (fun _ => []) (some "http://x") "a/b" ⟨[], [("a/b", [])]⟩ =
      (mkdirsFS (dirname "a/b") ⟨[], [("a/b", [])]⟩, []) :=
  (download_frame (fun _ => []) "a/b" ⟨[], [("a/b", [])]⟩).2.2.2 "http://x"
    (by decide) (by decide)

end Saints
